import Mathlib

/-!
Verification of the configuration resolution/distribution subsystem of the
Opentrons desktop application (`app-shell/src/config.js`).

The JavaScript source is shallowly embedded below:

- `ConfigValue` / `Fields` model JSON-like configuration trees (the spec's
  `ConfigTree`): scalars (null, boolean, number, string) and nested objects
  with ordered string-keyed fields.  JS `undefined` is modelled as
  `Option.none` wherever a lookup can miss.
- `getIn` models `@thi.ng/paths` `getIn` (and `dot-prop`'s `get`, used by
  `electron-store`): descend through nested objects segment by segment,
  yielding `undefined` when a segment is missing or the current value is not
  an object.  A path is a list of already-split segments; the empty list is
  the root path (a JS `undefined` path argument).
- `storeSet` models `dot-prop` `set` as used by `electron-store`'s
  `Store.set`: intermediate non-object values are replaced by fresh objects.
- `mergeOptions2` models the two-argument call of the `merge-options`
  package: plain objects are merged per key recursively (source key wins
  unless both values are plain objects), null/undefined arguments are
  skipped, and any other non-object argument raises a `TypeError`.
- `getConfig`, `getFullConfig`, `getOverrides` and `handleIncomingAction`
  (the closure returned by `registerConfig`) mirror the control flow of
  `config.js` line by line.
- `lazyAccess` models the `_x || (_x = init())` lazy-singleton accessors for
  the store and the parsed overrides; `confSet`/`subNotify` model
  `conf`'s `set` + `onDidChange` change-subscription machinery used through
  `handleConfigChange`.
-/

namespace OTConfig

mutual

/-- A JSON-like configuration value: the spec's `ConfigTree` leaves and
nodes.  `obj` holds an ordered list of string-keyed fields. -/
inductive ConfigValue where
  | null
  | bool (b : Bool)
  | num (n : Int)
  | str (s : String)
  | obj (fields : Fields)
deriving DecidableEq, Repr

/-- Ordered association list of object fields. -/
inductive Fields where
  | nil
  | cons (key : String) (value : ConfigValue) (rest : Fields)
deriving DecidableEq, Repr

end

/-- A dot-split configuration path; `[]` is the root path. -/
abbrev ConfigPath := List String

/-- First binding of `k` in a field list (JS objects cannot hold duplicate
keys; lookup returns the property value, `none` models `undefined`). -/
def lookupField : Fields → String → Option ConfigValue
  | Fields.nil, _ => none
  | Fields.cons k v rest, key => if k = key then some v else lookupField rest key

/-- Whether a field list has a binding for `k`. -/
def hasKey (fs : Fields) (k : String) : Bool :=
  (lookupField fs k).isSome

/-- `getIn` of `@thi.ng/paths` (also `dot-prop`'s `get`): walk the path
through nested objects; any miss or non-object on the way yields
`undefined` (`none`).  The empty path returns the value itself. -/
def getIn : ConfigValue → ConfigPath → Option ConfigValue
  | v, [] => some v
  | ConfigValue.obj fs, k :: ks =>
      match lookupField fs k with
      | some v => getIn v ks
      | none => none
  | _, _ :: _ => none

/-- JS `x != null`: true for any value other than `null`/`undefined`. -/
def notNil : Option ConfigValue → Bool
  | none => false
  | some ConfigValue.null => false
  | some _ => true

/-- Replace the first binding of `k`, or append one (JS property write). -/
def setField : Fields → String → ConfigValue → Fields
  | Fields.nil, k, v => Fields.cons k v Fields.nil
  | Fields.cons k' v' rest, k, v =>
      if k' = k then Fields.cons k v rest
      else Fields.cons k' v' (setField rest k v)

/-- Inner loop of `dot-prop`'s `set`: descend creating intermediate objects,
replacing non-object intermediates with fresh empty objects. -/
def setSegs : Fields → ConfigPath → ConfigValue → Fields
  | fs, [], _ => fs
  | fs, [k], v => setField fs k v
  | fs, k :: k' :: ks, v =>
      let child := match lookupField fs k with
        | some (ConfigValue.obj cfs) => cfs
        | _ => Fields.nil
      setField fs k (ConfigValue.obj (setSegs child (k' :: ks) v))

/-- `electron-store`'s `Store.set` (via `dot-prop` `set`): a no-op when the
document is not an object or the path is empty (a non-string path in JS). -/
def storeSet (doc : ConfigValue) (p : ConfigPath) (v : ConfigValue) : ConfigValue :=
  match doc with
  | ConfigValue.obj fs =>
      match p with
      | [] => doc
      | _ :: _ => ConfigValue.obj (setSegs fs p v)
  | _ => doc

mutual

/-- Per-key merge rule of `merge-options`: recurse when both values are
plain objects, otherwise the source (second) value wins. -/
def mergeVal : ConfigValue → ConfigValue → ConfigValue
  | ConfigValue.obj a, ConfigValue.obj b => ConfigValue.obj (mergeInto a b)
  | _, b => b

/-- `merge-options`' `mergeKeys`: fold the source fields into the
accumulated object, updating bindings in place and appending new ones. -/
def mergeInto : Fields → Fields → Fields
  | acc, Fields.nil => acc
  | acc, Fields.cons k v rest =>
      let acc' := match lookupField acc k with
        | some mv => setField acc k (mergeVal mv v)
        | none => setField acc k v
      mergeInto acc' rest

end

instance {ε α : Type} [DecidableEq ε] [DecidableEq α] : DecidableEq (Except ε α)
  | Except.ok a, Except.ok b =>
      if h : a = b then Decidable.isTrue (by rw [h])
      else Decidable.isFalse (by simp [h])
  | Except.ok _, Except.error _ => Decidable.isFalse (by simp)
  | Except.error _, Except.ok _ => Decidable.isFalse (by simp)
  | Except.error e, Except.error f =>
      if h : e = f then Decidable.isTrue (by rw [h])
      else Decidable.isFalse (by simp [h])

/-- One reduction step of `merge-options`' argument fold: `null`/`undefined`
arguments are skipped, object arguments are merged, and any other argument
raises `TypeError: ... is not an Object`. -/
def mergeArg (acc : ConfigValue) (b : ConfigValue) : Except String ConfigValue :=
  match b with
  | ConfigValue.null => Except.ok acc
  | ConfigValue.obj _ => Except.ok (mergeVal acc b)
  | _ => Except.error "TypeError"

/-- `mergeOptions(a, b)`: reduce both arguments from a fresh empty object. -/
def mergeOptions2 (a b : ConfigValue) : Except String ConfigValue :=
  match mergeArg (ConfigValue.obj Fields.nil) a with
  | Except.ok m => mergeArg m b
  | Except.error e => Except.error e

/-- `getConfig(path)` of `config.js`:
`result = store().get(path); over = getIn(overrides(), path);`
if `over != null` then merge when `result` is a non-null object, else
return `over`; otherwise return `result`.  An `Except.error` models the
`TypeError` thrown by `merge-options` on a primitive argument. -/
def getConfig (stored overrides : ConfigValue) (path : ConfigPath) :
    Except String (Option ConfigValue) :=
  let result := getIn stored path
  match getIn overrides path with
  | some o =>
      if o = ConfigValue.null then Except.ok result
      else
        match result with
        | some (ConfigValue.obj fs) =>
            (mergeOptions2 (ConfigValue.obj fs) o).map some
        | _ => Except.ok (some o)
  | none => Except.ok result

/-- `getFullConfig()` of `config.js`: `getConfig()` with no path argument,
i.e. the root path. -/
def getFullConfig (stored overrides : ConfigValue) : Except String (Option ConfigValue) :=
  getConfig stored overrides []

/-- `getOverrides(path)` of `config.js`. -/
def getOverrides (overrides : ConfigValue) (path : ConfigPath) : Option ConfigValue :=
  getIn overrides path

/-- Payload of a `config:UPDATE` / `config:SET` action. -/
structure UpdatePayload where
  path : ConfigPath
  value : ConfigValue
deriving DecidableEq, Repr

/-- An action of the cross-process dispatch protocol, tagged by its
`type` string. -/
structure Action where
  type : String
  payload : UpdatePayload
deriving DecidableEq, Repr

/-- One log line emitted by the handler (`log().debug` / `log().info`). -/
inductive LogEntry where
  | debugHandling (payload : UpdatePayload)
  | infoShadowed (path : ConfigPath)
  | infoUpdating (path : ConfigPath) (value : ConfigValue)
deriving DecidableEq, Repr

/-- Observable outcome of one call of the handler returned by
`registerConfig`: the persisted document afterwards, the actions passed to
`dispatch`, and the log lines emitted. -/
structure Effects where
  stored : ConfigValue
  dispatched : List Action
  logs : List LogEntry
deriving DecidableEq, Repr

/-- `handleIncomingAction` (the closure returned by `registerConfig`):
only `config:UPDATE` actions are examined; a path with a non-null override
is logged and dropped, otherwise the store is written and a `config:SET`
action with the same payload is dispatched. -/
def handleIncomingAction (overrides stored : ConfigValue) (action : Action) : Effects :=
  if action.type = "config:UPDATE" then
    let payload := action.payload
    if notNil (getIn overrides payload.path) then
      { stored := stored
        dispatched := []
        logs := [LogEntry.debugHandling payload, LogEntry.infoShadowed payload.path] }
    else
      { stored := storeSet stored payload.path payload.value
        dispatched := [{ type := "config:SET", payload := payload }]
        logs := [LogEntry.debugHandling payload,
                 LogEntry.infoUpdating payload.path payload.value] }
  else
    { stored := stored, dispatched := [], logs := [] }

/-- JS truthiness of a configuration value. -/
def truthy : ConfigValue → Bool
  | ConfigValue.null => false
  | ConfigValue.bool b => b
  | ConfigValue.num n => n != 0
  | ConfigValue.str s => s ≠ ""
  | ConfigValue.obj _ => true

/-- State of one lazily initialized module-level singleton
(`_store`, `_over`, `_log`), together with a probe counting how often the
initializer ran. -/
structure LazyCell where
  cache : Option ConfigValue
  initCount : Nat
deriving DecidableEq, Repr

/-- One call of a `() => _x || (_x = init)` accessor: a truthy cached value
is returned as is; otherwise the initializer runs and its result is cached. -/
def lazyAccess (init : ConfigValue) (c : LazyCell) : ConfigValue × LazyCell :=
  match c.cache with
  | some v =>
      if truthy v then (v, c)
      else (init, { cache := some init, initCount := c.initCount + 1 })
  | none => (init, { cache := some init, initCount := c.initCount + 1 })

/-- A sequence of `n` accessor calls, collecting every returned value. -/
def lazyRun (init : ConfigValue) : Nat → LazyCell → List ConfigValue × LazyCell
  | 0, c => ([], c)
  | n + 1, c =>
      let r := lazyAccess init c
      let rest := lazyRun init n r.2
      (r.1 :: rest.1, rest.2)

/-- A change subscription registered through `conf`'s `onDidChange`:
the watched path, the last value it observed (`currentValue`), and the
`(newValue, oldValue)` pairs its callback has been invoked with. -/
structure Subscription where
  path : ConfigPath
  current : Option ConfigValue
  fired : List (Option ConfigValue × Option ConfigValue)
deriving DecidableEq, Repr

/-- `conf`'s `onDidChange` listener reacting to one `change` event: the
callback fires only when the value at the watched path is no longer
deep-equal to the last observed one. -/
def subNotify (doc : ConfigValue) (s : Subscription) : Subscription :=
  let newValue := getIn doc s.path
  if newValue = s.current then s
  else { s with current := newValue, fired := s.fired ++ [(newValue, s.current)] }

/-- The persistent store with its registered change subscriptions. -/
structure StoreState where
  doc : ConfigValue
  subs : List Subscription
deriving DecidableEq, Repr

/-- `Store.set(path, value)`: write through `dot-prop` and let every
subscription react to the emitted `change` event. -/
def confSet (st : StoreState) (p : ConfigPath) (v : ConfigValue) : StoreState :=
  let doc' := storeSet st.doc p v
  { doc := doc', subs := st.subs.map (subNotify doc') }

/-- `handleConfigChange(path, handler)` of `config.js`:
`store().onDidChange(path, handler)` captures the current value at `path`
and registers the subscription. -/
def handleConfigChange (st : StoreState) (p : ConfigPath) : StoreState :=
  { st with subs := st.subs ++ [{ path := p, current := getIn st.doc p, fired := [] }] }

mutual

/-- Well-formedness of a configuration tree: every object has pairwise
distinct keys, recursively (true of every tree produced by a JS object). -/
def wfTree : ConfigValue → Bool
  | ConfigValue.obj fs => wfFields fs
  | _ => true

/-- Well-formedness of a field list. -/
def wfFields : Fields → Bool
  | Fields.nil => true
  | Fields.cons k v rest => !hasKey rest k && wfTree v && wfFields rest

end

/-- Whether a value is a plain object. -/
def ConfigValue.isObj : ConfigValue → Bool
  | ConfigValue.obj _ => true
  | _ => false

/-- Whether a stored lookup result and an override value are both plain
objects (the precondition for recursive merging). -/
def bothObj : Option ConfigValue → ConfigValue → Bool
  | some (ConfigValue.obj _), ConfigValue.obj _ => true
  | _, _ => false

/-- The claimed merge shape: keys only in the stored object are preserved,
override keys win per key, and when both sides hold objects the rule
applies recursively at the next depth. -/
inductive KeysMerged : Fields → Fields → Fields → Prop where
  | intro (sf of' rf : Fields)
      (stored_only : ∀ k v, lookupField of' k = none → lookupField sf k = some v →
          lookupField rf k = some v)
      (both_objects_shape : ∀ k s' o', lookupField sf k = some (ConfigValue.obj s') →
          lookupField of' k = some (ConfigValue.obj o') →
          (lookupField rf k).elim False (fun r => r.isObj = true))
      (both_objects_rec : ∀ k s' o' r', lookupField sf k = some (ConfigValue.obj s') →
          lookupField of' k = some (ConfigValue.obj o') →
          lookupField rf k = some (ConfigValue.obj r') → KeysMerged s' o' r')
      (override_wins : ∀ k ov, lookupField of' k = some ov →
          bothObj (lookupField sf k) ov = false → lookupField rf k = some ov) :
      KeysMerged sf of' rf

/-- Concatenation of field lists. -/
def Fields.append : Fields → Fields → Fields
  | Fields.nil, gs => gs
  | Fields.cons k v rest, gs => Fields.cons k v (Fields.append rest gs)

/-- Pairwise distinctness of the keys at one level of a field list. -/
def distinctKeys : Fields → Bool
  | Fields.nil => true
  | Fields.cons k _ rest => !hasKey rest k && distinctKeys rest

/-- Structural induction on a field list alone (the mutual recursor of
`ConfigValue`/`Fields` has two motives, so `induction` cannot use it
directly). -/
theorem Fields.induct (motive : Fields → Prop) (nil : motive Fields.nil)
    (cons : ∀ k v rest, motive rest → motive (Fields.cons k v rest)) :
    ∀ fs, motive fs
  | Fields.nil => nil
  | Fields.cons k v rest => cons k v rest (Fields.induct motive nil cons rest)

theorem wfFields_distinctKeys (fs : Fields) (h : wfFields fs = true) :
    distinctKeys fs = true := by
  induction fs using Fields.induct with
  | nil => rfl
  | cons k v rest ih =>
      simp only [wfFields, Bool.and_eq_true] at h
      simp only [distinctKeys, Bool.and_eq_true]
      exact ⟨h.1.1, ih h.2⟩

theorem lookup_setField_self (fs : Fields) (k : String) (v : ConfigValue) :
    lookupField (setField fs k v) k = some v := by
  induction fs using Fields.induct with
  | nil => simp [setField, lookupField]
  | cons k' v' rest ih =>
      by_cases h : k' = k
      · simp [setField, h, lookupField]
      · simp [setField, h, lookupField, ih]

theorem lookup_setField_ne (fs : Fields) (k k' : String) (v : ConfigValue)
    (h : k ≠ k') : lookupField (setField fs k v) k' = lookupField fs k' := by
  induction fs using Fields.induct with
  | nil => simp [setField, lookupField, h]
  | cons k2 v2 rest ih =>
      by_cases h2 : k2 = k
      · simp [setField, h2, lookupField, h]
      · simp only [setField, if_neg h2, lookupField]
        by_cases h3 : k2 = k'
        · simp [h3]
        · simp [h3, ih]

theorem sizeOf_lookupField (fs : Fields) (k : String) (v : ConfigValue)
    (h : lookupField fs k = some v) : sizeOf v < sizeOf fs := by
  induction fs using Fields.induct with
  | nil => simp [lookupField] at h
  | cons k2 v2 rest ih =>
      simp only [lookupField] at h
      by_cases h2 : k2 = k
      · rw [if_pos h2] at h
        obtain rfl : v2 = v := by injection h
        simp only [Fields.cons.sizeOf_spec]
        omega
      · rw [if_neg h2] at h
        have := ih h
        simp only [Fields.cons.sizeOf_spec]
        omega

theorem wfFields_lookup (fs : Fields) (k : String) (v : ConfigValue)
    (hwf : wfFields fs = true) (h : lookupField fs k = some v) : wfTree v = true := by
  induction fs using Fields.induct with
  | nil => simp [lookupField] at h
  | cons k2 v2 rest ih =>
      simp only [wfFields, Bool.and_eq_true] at hwf
      simp only [lookupField] at h
      by_cases h2 : k2 = k
      · rw [if_pos h2] at h
        obtain rfl : v2 = v := by injection h
        exact hwf.1.2
      · rw [if_neg h2] at h
        exact ih hwf.2 h

theorem getIn_wf (p : ConfigPath) (t v : ConfigValue)
    (hwf : wfTree t = true) (h : getIn t p = some v) : wfTree v = true := by
  induction p generalizing t with
  | nil =>
      obtain rfl : t = v := by simpa [getIn] using h
      exact hwf
  | cons k ks ih =>
      cases t with
      | obj fs =>
          simp only [getIn] at h
          cases hl : lookupField fs k with
          | none => rw [hl] at h; exact absurd h (by simp)
          | some u =>
              rw [hl] at h
              exact ih u (wfFields_lookup fs k u (by simpa [wfTree] using hwf) hl) h
      | null => simp [getIn] at h
      | bool b => simp [getIn] at h
      | num n => simp [getIn] at h
      | str s => simp [getIn] at h

theorem hasKey_false_lookup (fs : Fields) (k : String) (h : hasKey fs k = false) :
    lookupField fs k = none := by
  cases hl : lookupField fs k with
  | none => rfl
  | some v => rw [hasKey, hl] at h; simp at h

theorem lookup_mergeInto_notin (of' : Fields) (sf : Fields) (k : String)
    (h : hasKey of' k = false) :
    lookupField (mergeInto sf of') k = lookupField sf k := by
  induction of' using Fields.induct generalizing sf with
  | nil => simp [mergeInto]
  | cons k2 v2 rest ih =>
      have hk2 : k2 ≠ k := by
        intro hcontra
        simp [hasKey, lookupField, hcontra] at h
      have hrest : hasKey rest k = false := by
        simpa [hasKey, lookupField, hk2] using h
      simp only [mergeInto]
      cases hl : lookupField sf k2 with
      | some mv => rw [ih _ hrest, lookup_setField_ne sf k2 k _ hk2]
      | none => rw [ih _ hrest, lookup_setField_ne sf k2 k _ hk2]

theorem lookup_mergeInto_in (of' : Fields) (sf : Fields) (k : String) (ov : ConfigValue)
    (hd : distinctKeys of' = true) (h : lookupField of' k = some ov) :
    lookupField (mergeInto sf of') k =
      some (match lookupField sf k with
            | some mv => mergeVal mv ov
            | none => ov) := by
  induction of' using Fields.induct generalizing sf with
  | nil => simp [lookupField] at h
  | cons k2 v2 rest ih =>
      simp only [distinctKeys, Bool.and_eq_true, Bool.not_eq_true'] at hd
      simp only [lookupField] at h
      by_cases h2 : k2 = k
      · subst h2
        rw [if_pos rfl] at h
        obtain rfl : v2 = ov := by injection h
        simp only [mergeInto]
        cases hl : lookupField sf k2 with
        | some mv =>
            rw [lookup_mergeInto_notin rest _ k2 hd.1, lookup_setField_self]
        | none =>
            rw [lookup_mergeInto_notin rest _ k2 hd.1, lookup_setField_self]
      · rw [if_neg h2] at h
        simp only [mergeInto]
        cases hl : lookupField sf k2 with
        | some mv =>
            rw [ih _ hd.2 h, lookup_setField_ne sf k2 k _ h2]
        | none =>
            rw [ih _ hd.2 h, lookup_setField_ne sf k2 k _ h2]

theorem Fields.append_nil (fs : Fields) : Fields.append fs Fields.nil = fs := by
  induction fs using Fields.induct with
  | nil => rfl
  | cons k v rest ih => simp [Fields.append, ih]

theorem Fields.append_assoc (fs gs hs : Fields) :
    Fields.append (Fields.append fs gs) hs = Fields.append fs (Fields.append gs hs) := by
  induction fs using Fields.induct with
  | nil => rfl
  | cons k v rest ih => simp [Fields.append, ih]

theorem setField_absent (fs : Fields) (k : String) (v : ConfigValue)
    (h : hasKey fs k = false) :
    setField fs k v = Fields.append fs (Fields.cons k v Fields.nil) := by
  induction fs using Fields.induct with
  | nil => rfl
  | cons k2 v2 rest ih =>
      have hk2 : k2 ≠ k := by
        intro hcontra
        simp [hasKey, lookupField, hcontra] at h
      have hrest : hasKey rest k = false := by
        simpa [hasKey, lookupField, hk2] using h
      simp [setField, hk2, Fields.append, ih hrest]

theorem lookup_append_right (fs gs : Fields) (k : String)
    (h : hasKey fs k = false) :
    lookupField (Fields.append fs gs) k = lookupField gs k := by
  induction fs using Fields.induct with
  | nil => rfl
  | cons k2 v2 rest ih =>
      have hk2 : k2 ≠ k := by
        intro hcontra
        simp [hasKey, lookupField, hcontra] at h
      have hrest : hasKey rest k = false := by
        simpa [hasKey, lookupField, hk2] using h
      simp [Fields.append, lookupField, hk2, ih hrest]

theorem mergeInto_fresh (fs : Fields) : ∀ acc : Fields,
    (∀ k, hasKey fs k = true → hasKey acc k = false) → distinctKeys fs = true →
    mergeInto acc fs = Fields.append acc fs := by
  induction fs using Fields.induct with
  | nil => intro acc _ _; simp [mergeInto, Fields.append_nil]
  | cons k v rest ih =>
      intro acc hfresh hd
      simp only [distinctKeys, Bool.and_eq_true, Bool.not_eq_true'] at hd
      have hacc : hasKey acc k = false := hfresh k (by simp [hasKey, lookupField])
      have hlacc : lookupField acc k = none := hasKey_false_lookup acc k hacc
      simp only [mergeInto, hlacc]
      rw [setField_absent acc k v hacc]
      rw [ih (Fields.append acc (Fields.cons k v Fields.nil)) ?_ hd.2]
      · rw [Fields.append_assoc]
        rfl
      · intro k2 hk2
        have hk2ne : k ≠ k2 := by
          intro hcontra
          rw [hcontra] at hd
          rw [hd.1] at hk2
          exact Bool.false_ne_true hk2
        have : hasKey acc k2 = false := hfresh k2 (by simp [hasKey, lookupField, hk2ne, Ne.symm hk2ne]; simpa [hasKey] using hk2)
        rw [← setField_absent acc k v hacc]
        simpa [hasKey, lookup_setField_ne acc k k2 v hk2ne] using this

/-- Merging a well-formed field list into a fresh empty object copies it
(`merge-options` starts its fold from `{}`). -/
theorem mergeInto_nil (fs : Fields) (hd : distinctKeys fs = true) :
    mergeInto Fields.nil fs = fs := by
  rw [mergeInto_fresh fs Fields.nil (fun k _ => by simp [hasKey, lookupField]) hd]
  rfl

/-- `merge-options`' field fold realises the claimed merge shape on
well-formed override fields. -/
theorem mergeInto_keysMerged (of' : Fields) (sf : Fields) (hwf : wfFields of' = true) :
    KeysMerged sf of' (mergeInto sf of') := by
  have hd : distinctKeys of' = true := wfFields_distinctKeys of' hwf
  refine KeysMerged.intro sf of' (mergeInto sf of') ?_ ?_ ?_ ?_
  · intro k v hnone hsome
    have h2 : hasKey of' k = false := by simp [hasKey, hnone]
    rw [lookup_mergeInto_notin of' sf k h2, hsome]
  · intro k s' o' hs ho
    rw [lookup_mergeInto_in of' sf k _ hd ho, hs]
    simp [mergeVal, ConfigValue.isObj]
  · intro k s' o' r' hs ho hr
    have hm := lookup_mergeInto_in of' sf k _ hd ho
    rw [hs] at hm
    rw [hm] at hr
    have hrr : ConfigValue.obj (mergeInto s' o') = ConfigValue.obj r' := by
      simpa [mergeVal] using hr
    obtain rfl : r' = mergeInto s' o' := by
      cases hrr
      rfl
    have hwo' : wfFields o' = true := by
      have := wfFields_lookup of' k _ hwf ho
      simpa [wfTree] using this
    exact mergeInto_keysMerged o' s' hwo'
  · intro k ov ho hnb
    rw [lookup_mergeInto_in of' sf k ov hd ho]
    cases hsf : lookupField sf k with
    | none => simp
    | some mv =>
        rw [hsf] at hnb
        cases mv <;> cases ov <;> simp_all [bothObj, mergeVal]
termination_by sizeOf of'
decreasing_by
  have h1 := sizeOf_lookupField of' k _ ho
  simp only [ConfigValue.obj.sizeOf_spec] at h1
  omega

/-- Claim C1: when both the stored document and the override tree hold
objects at a path, `getConfig` resolves to a merged object in which keys
present only in the stored object are preserved and override keys win per
key, recursively at every nesting depth. -/
theorem getConfig_object_merge (stored overrides : ConfigValue) (p : ConfigPath)
    (sf of' : Fields)
    (hs : getIn stored p = some (ConfigValue.obj sf))
    (ho : getIn overrides p = some (ConfigValue.obj of'))
    (hws : wfTree stored = true) (hwo : wfTree overrides = true) :
    ∃ rf, getConfig stored overrides p = Except.ok (some (ConfigValue.obj rf)) ∧
      KeysMerged sf of' rf := by
  have hwsf : wfFields sf = true := by
    have := getIn_wf p stored _ hws hs
    simpa [wfTree] using this
  have hwof : wfFields of' = true := by
    have := getIn_wf p overrides _ hwo ho
    simpa [wfTree] using this
  refine ⟨mergeInto sf of', ?_, mergeInto_keysMerged of' sf hwof⟩
  simp only [getConfig, hs, ho]
  rw [if_neg (by intro hcontra; cases hcontra)]
  simp only [mergeOptions2, mergeArg, mergeVal,
    mergeInto_nil sf (wfFields_distinctKeys sf hwsf), Except.map]

/-- Concrete stored document used by the C1 witness:
`{log: {level: {file: "debug", console: "info"}}}`. -/
def c1Stored : ConfigValue :=
  ConfigValue.obj (Fields.cons "log"
    (ConfigValue.obj (Fields.cons "level"
      (ConfigValue.obj (Fields.cons "file" (ConfigValue.str "debug")
        (Fields.cons "console" (ConfigValue.str "info") Fields.nil)))
      Fields.nil))
    Fields.nil)

/-- Concrete override tree used by the C1 witness:
`{log: {level: {console: "error"}}}`. -/
def c1Overrides : ConfigValue :=
  ConfigValue.obj (Fields.cons "log"
    (ConfigValue.obj (Fields.cons "level"
      (ConfigValue.obj (Fields.cons "console" (ConfigValue.str "error") Fields.nil))
      Fields.nil))
    Fields.nil)

/-- Witness for C1: the merge theorem applied at
`getConfig("log.level")` with a stored object and an override object. -/
theorem getConfig_object_merge_witness :
    getIn c1Stored ["log", "level"] =
      some (ConfigValue.obj (Fields.cons "file" (ConfigValue.str "debug")
        (Fields.cons "console" (ConfigValue.str "info") Fields.nil))) ∧
    getIn c1Overrides ["log", "level"] =
      some (ConfigValue.obj (Fields.cons "console" (ConfigValue.str "error") Fields.nil)) ∧
    wfTree c1Stored = true ∧ wfTree c1Overrides = true ∧
    ∃ rf, getConfig c1Stored c1Overrides ["log", "level"] =
        Except.ok (some (ConfigValue.obj rf)) ∧
      KeysMerged
        (Fields.cons "file" (ConfigValue.str "debug")
          (Fields.cons "console" (ConfigValue.str "info") Fields.nil))
        (Fields.cons "console" (ConfigValue.str "error") Fields.nil) rf :=
  ⟨by decide, by decide, by decide, by decide,
    getConfig_object_merge c1Stored c1Overrides ["log", "level"] _ _
      (by decide) (by decide) (by decide) (by decide)⟩

/-- Claim C2: a `config:UPDATE` whose path carries a non-null override is
dropped: the store is untouched, nothing is dispatched, and the only side
effect is logging. -/
theorem update_shadowed_noop (overrides stored : ConfigValue) (pl : UpdatePayload)
    (h : notNil (getIn overrides pl.path) = true) :
    handleIncomingAction overrides stored { type := "config:UPDATE", payload := pl } =
      { stored := stored
        dispatched := []
        logs := [LogEntry.debugHandling pl, LogEntry.infoShadowed pl.path] } := by
  simp [handleIncomingAction, h]

/-- Witness for C2: override `{log: {level: {console: "debug"}}}` shadows an
update of `"log.level.console"` to `"silly"`. -/
theorem update_shadowed_noop_witness :
    notNil (getIn
      (ConfigValue.obj (Fields.cons "log"
        (ConfigValue.obj (Fields.cons "level"
          (ConfigValue.obj (Fields.cons "console" (ConfigValue.str "debug") Fields.nil))
          Fields.nil))
        Fields.nil))
      ["log", "level", "console"]) = true ∧
    handleIncomingAction
      (ConfigValue.obj (Fields.cons "log"
        (ConfigValue.obj (Fields.cons "level"
          (ConfigValue.obj (Fields.cons "console" (ConfigValue.str "debug") Fields.nil))
          Fields.nil))
        Fields.nil))
      (ConfigValue.obj Fields.nil)
      { type := "config:UPDATE"
        payload := { path := ["log", "level", "console"], value := ConfigValue.str "silly" } } =
      { stored := ConfigValue.obj Fields.nil
        dispatched := []
        logs := [LogEntry.debugHandling
            { path := ["log", "level", "console"], value := ConfigValue.str "silly" },
          LogEntry.infoShadowed ["log", "level", "console"]] } :=
  ⟨by decide,
    update_shadowed_noop _ _
      { path := ["log", "level", "console"], value := ConfigValue.str "silly" }
      (by decide)⟩

/-- Reading back a freshly written value: `dot-prop`'s `set` followed by a
`get` of the same (non-empty) path on an object document yields the value. -/
theorem getIn_setSegs (p : ConfigPath) (hp : p ≠ []) (fs : Fields) (v : ConfigValue) :
    getIn (ConfigValue.obj (setSegs fs p v)) p = some v := by
  induction p generalizing fs with
  | nil => exact absurd rfl hp
  | cons k ks ih =>
      cases ks with
      | nil => simp [setSegs, getIn, lookup_setField_self]
      | cons k2 ks2 =>
          simp only [setSegs, getIn, lookup_setField_self]
          exact ih (by simp) _

/-- Claim C3: a `config:UPDATE` on a path with no override writes the value
into the store, dispatches exactly one `config:SET` with the same payload,
and afterwards `getConfig` on that path returns the written value. -/
theorem update_passthrough_writes (overrides : ConfigValue) (sf : Fields)
    (pl : UpdatePayload)
    (h : notNil (getIn overrides pl.path) = false) (hp : pl.path ≠ []) :
    handleIncomingAction overrides (ConfigValue.obj sf)
        { type := "config:UPDATE", payload := pl } =
      { stored := storeSet (ConfigValue.obj sf) pl.path pl.value
        dispatched := [{ type := "config:SET", payload := pl }]
        logs := [LogEntry.debugHandling pl, LogEntry.infoUpdating pl.path pl.value] } ∧
    getConfig (storeSet (ConfigValue.obj sf) pl.path pl.value) overrides pl.path =
      Except.ok (some pl.value) := by
  constructor
  · simp [handleIncomingAction, h]
  · have hget : getIn (storeSet (ConfigValue.obj sf) pl.path pl.value) pl.path =
        some pl.value := by
      cases hpp : pl.path with
      | nil => exact absurd hpp hp
      | cons k ks =>
          rw [← hpp]
          simp only [storeSet, hpp]
          rw [← hpp]
          exact getIn_setSegs pl.path hp sf pl.value
    simp only [getConfig, hget]
    cases hov : getIn overrides pl.path with
    | none => rfl
    | some o =>
        cases o <;> simp_all [notNil]

/-- Witness for C3: with no override on `"ui.width"`, updating it to `800`
persists and re-broadcasts, and `getConfig("ui.width")` reads back `800`. -/
theorem update_passthrough_writes_witness :
    notNil (getIn (ConfigValue.obj (Fields.cons "devtools" (ConfigValue.bool true) Fields.nil))
        ["ui", "width"]) = false ∧
    (["ui", "width"] : ConfigPath) ≠ [] ∧
    (handleIncomingAction
        (ConfigValue.obj (Fields.cons "devtools" (ConfigValue.bool true) Fields.nil))
        (ConfigValue.obj (Fields.cons "ui"
          (ConfigValue.obj (Fields.cons "width" (ConfigValue.num 1024) Fields.nil))
          Fields.nil))
        { type := "config:UPDATE"
          payload := { path := ["ui", "width"], value := ConfigValue.num 800 } } =
      { stored := storeSet
          (ConfigValue.obj (Fields.cons "ui"
            (ConfigValue.obj (Fields.cons "width" (ConfigValue.num 1024) Fields.nil))
            Fields.nil))
          ["ui", "width"] (ConfigValue.num 800)
        dispatched :=
          [{ type := "config:SET",
             payload := { path := ["ui", "width"], value := ConfigValue.num 800 } }]
        logs := [LogEntry.debugHandling
            { path := ["ui", "width"], value := ConfigValue.num 800 },
          LogEntry.infoUpdating ["ui", "width"] (ConfigValue.num 800)] } ∧
    getConfig
        (storeSet
          (ConfigValue.obj (Fields.cons "ui"
            (ConfigValue.obj (Fields.cons "width" (ConfigValue.num 1024) Fields.nil))
            Fields.nil))
          ["ui", "width"] (ConfigValue.num 800))
        (ConfigValue.obj (Fields.cons "devtools" (ConfigValue.bool true) Fields.nil))
        ["ui", "width"] = Except.ok (some (ConfigValue.num 800))) :=
  ⟨by decide, by decide,
    update_passthrough_writes
      (ConfigValue.obj (Fields.cons "devtools" (ConfigValue.bool true) Fields.nil))
      (Fields.cons "ui"
        (ConfigValue.obj (Fields.cons "width" (ConfigValue.num 1024) Fields.nil))
        Fields.nil)
      { path := ["ui", "width"], value := ConfigValue.num 800 }
      (by decide) (by decide)⟩

/-- Claim C10: any action whose type is not `config:UPDATE` is a complete
no-op for the handler: no store mutation, no dispatch, no logging. -/
theorem non_update_action_noop (overrides stored : ConfigValue) (a : Action)
    (h : a.type ≠ "config:UPDATE") :
    handleIncomingAction overrides stored a =
      { stored := stored, dispatched := [], logs := [] } := by
  simp [handleIncomingAction, h]

/-- Witness for C10: a `discovery:START` action leaves everything alone. -/
theorem non_update_action_noop_witness :
    ("discovery:START" : String) ≠ "config:UPDATE" ∧
    handleIncomingAction (ConfigValue.obj Fields.nil)
        (ConfigValue.obj (Fields.cons "devtools" (ConfigValue.bool false) Fields.nil))
        { type := "discovery:START"
          payload := { path := [], value := ConfigValue.null } } =
      { stored := ConfigValue.obj (Fields.cons "devtools" (ConfigValue.bool false) Fields.nil)
        dispatched := []
        logs := [] } :=
  ⟨by decide,
    non_update_action_noop _ _
      { type := "discovery:START"
        payload := { path := [], value := ConfigValue.null } }
      (by decide)⟩

/-- Whether a value is a scalar (anything but a plain object). -/
def isScalar : ConfigValue → Bool
  | ConfigValue.obj _ => false
  | _ => true

/-- Counterexample to C4 as stated: with override `{a: "debug"}` (a scalar
override at `"a"`) and stored `{a: {}}` (an object), `getConfig("a")` does
not return the override value — `merge-options` raises a `TypeError`. -/
theorem scalar_override_object_counterexample :
    getIn (ConfigValue.obj (Fields.cons "a" (ConfigValue.str "debug") Fields.nil)) ["a"] =
      some (ConfigValue.str "debug") ∧
    isScalar (ConfigValue.str "debug") = true ∧
    getConfig (ConfigValue.obj (Fields.cons "a" (ConfigValue.obj Fields.nil) Fields.nil))
        (ConfigValue.obj (Fields.cons "a" (ConfigValue.str "debug") Fields.nil)) ["a"] =
      Except.error "TypeError" ∧
    getConfig (ConfigValue.obj (Fields.cons "a" (ConfigValue.obj Fields.nil) Fields.nil))
        (ConfigValue.obj (Fields.cons "a" (ConfigValue.str "debug") Fields.nil)) ["a"] ≠
      Except.ok (some (ConfigValue.str "debug")) := by
  decide

/-- Claim C4 (amended): a non-null scalar override at `p` is returned
exactly when the stored value at `p` is a scalar or absent; when the stored
value at `p` is an object, `getConfig` instead raises the `merge-options`
`TypeError`. -/
theorem scalar_override_resolves (stored overrides : ConfigValue) (p : ConfigPath)
    (o : ConfigValue) (ho : getIn overrides p = some o)
    (hsc : isScalar o = true) (hnn : o ≠ ConfigValue.null) :
    getConfig stored overrides p =
      match getIn stored p with
      | some (ConfigValue.obj _) => Except.error "TypeError"
      | _ => Except.ok (some o) := by
  simp only [getConfig, ho, if_neg hnn]
  cases hst : getIn stored p with
  | none => rfl
  | some sv =>
      cases sv with
      | obj fs => cases o <;> simp_all [mergeOptions2, mergeArg, isScalar, Except.map]
      | null => rfl
      | bool b => rfl
      | num n => rfl
      | str s => rfl

/-- Witness for the amended C4: override `{a: "debug"}` over stored
`{a: 1}` resolves to `"debug"`. -/
theorem scalar_override_resolves_witness :
    getIn (ConfigValue.obj (Fields.cons "a" (ConfigValue.str "debug") Fields.nil)) ["a"] =
      some (ConfigValue.str "debug") ∧
    isScalar (ConfigValue.str "debug") = true ∧
    ConfigValue.str "debug" ≠ ConfigValue.null ∧
    getConfig (ConfigValue.obj (Fields.cons "a" (ConfigValue.num 1) Fields.nil))
        (ConfigValue.obj (Fields.cons "a" (ConfigValue.str "debug") Fields.nil)) ["a"] =
      match getIn (ConfigValue.obj (Fields.cons "a" (ConfigValue.num 1) Fields.nil)) ["a"] with
      | some (ConfigValue.obj _) => Except.error "TypeError"
      | _ => Except.ok (some (ConfigValue.str "debug")) :=
  ⟨by decide, by decide, by decide,
    scalar_override_resolves
      (ConfigValue.obj (Fields.cons "a" (ConfigValue.num 1) Fields.nil))
      (ConfigValue.obj (Fields.cons "a" (ConfigValue.str "debug") Fields.nil))
      ["a"] (ConfigValue.str "debug") (by decide) (by decide) (by decide)⟩

/-- The non-empty initial segments of a path: the path itself and all of
its proper ancestors (the root excluded). -/
def ancestorPaths (p : ConfigPath) : List ConfigPath :=
  (List.range p.length).map (fun i => p.take (i + 1))

/-- Claim C5: when no override value sits at a (non-root) path nor at any
of its ancestors, `getConfig` returns the stored document's value at that
path unchanged. -/
theorem no_override_returns_stored (stored overrides : ConfigValue) (p : ConfigPath)
    (hp : p ≠ [])
    (h : (ancestorPaths p).all (fun q => !notNil (getIn overrides q)) = true) :
    getConfig stored overrides p = Except.ok (getIn stored p) := by
  have hlen : 0 < p.length := List.length_pos.mpr hp
  have hmem : p ∈ ancestorPaths p := by
    refine List.mem_map.mpr ⟨p.length - 1, List.mem_range.mpr (by omega), ?_⟩
    have h1 : p.length - 1 + 1 = p.length := by omega
    rw [h1, List.take_length]
  have hnp : notNil (getIn overrides p) = false := by
    have := List.all_eq_true.mp h p hmem
    simpa using this
  simp only [getConfig]
  cases hov : getIn overrides p with
  | none => rfl
  | some o => cases o <;> simp_all [notNil]

/-- Witness for C5: overrides `{devtools: true}` leave `"ui.width"` and its
ancestor `"ui"` untouched, so the stored value is returned. -/
theorem no_override_returns_stored_witness :
    (["ui", "width"] : ConfigPath) ≠ [] ∧
    (ancestorPaths ["ui", "width"]).all (fun q =>
      !notNil (getIn (ConfigValue.obj (Fields.cons "devtools" (ConfigValue.bool true)
        Fields.nil)) q)) = true ∧
    getConfig
        (ConfigValue.obj (Fields.cons "ui"
          (ConfigValue.obj (Fields.cons "width" (ConfigValue.num 1024) Fields.nil))
          Fields.nil))
        (ConfigValue.obj (Fields.cons "devtools" (ConfigValue.bool true) Fields.nil))
        ["ui", "width"] =
      Except.ok (getIn
        (ConfigValue.obj (Fields.cons "ui"
          (ConfigValue.obj (Fields.cons "width" (ConfigValue.num 1024) Fields.nil))
          Fields.nil))
        ["ui", "width"]) :=
  ⟨by decide, by decide,
    no_override_returns_stored
      (ConfigValue.obj (Fields.cons "ui"
        (ConfigValue.obj (Fields.cons "width" (ConfigValue.num 1024) Fields.nil))
        Fields.nil))
      (ConfigValue.obj (Fields.cons "devtools" (ConfigValue.bool true) Fields.nil))
      ["ui", "width"] (by decide) (by decide)⟩

/-- Counterexample to C6 as stated: with override `{log: "debug"}` — a
scalar override at the ancestor `"log"` — a `config:UPDATE` for
`"log.level"` is not rejected: the handler writes the store and dispatches
a `config:SET`. -/
theorem ancestor_scalar_override_counterexample :
    notNil (getIn (ConfigValue.obj (Fields.cons "log" (ConfigValue.str "debug") Fields.nil))
      ["log"]) = true ∧
    notNil (getIn (ConfigValue.obj (Fields.cons "log" (ConfigValue.str "debug") Fields.nil))
      ["log", "level"]) = false ∧
    (handleIncomingAction
        (ConfigValue.obj (Fields.cons "log" (ConfigValue.str "debug") Fields.nil))
        (ConfigValue.obj Fields.nil)
        { type := "config:UPDATE"
          payload := { path := ["log", "level"], value := ConfigValue.str "silly" } }).dispatched =
      [{ type := "config:SET",
         payload := { path := ["log", "level"], value := ConfigValue.str "silly" } }] := by
  decide

/-- Claim C6 (amended): a `config:UPDATE` write request is rejected (no
`config:SET` dispatched) iff the override tree, descended through nested
objects, holds a non-null value at exactly the requested path; a scalar
override at a proper ancestor does not shadow the path — the write
proceeds. -/
theorem update_rejected_iff_override_at_path (overrides stored : ConfigValue)
    (pl : UpdatePayload) :
    (handleIncomingAction overrides stored
        { type := "config:UPDATE", payload := pl }).dispatched = [] ↔
      notNil (getOverrides overrides pl.path) = true := by
  simp only [handleIncomingAction, getOverrides]
  cases h : notNil (getIn overrides pl.path) <;> simp [h]

/-- From a warm cache holding the (truthy) initialized value, every further
accessor call returns that value and never reruns the initializer. -/
theorem lazyRun_cached (init : ConfigValue) (h : truthy init = true) (n m : Nat) :
    lazyRun init n { cache := some init, initCount := m } =
      (List.replicate n init, { cache := some init, initCount := m }) := by
  induction n with
  | zero => rfl
  | succ n ih => simp [lazyRun, lazyAccess, h, ih, List.replicate_succ]

/-- Claim C7: for any sequence of calls to a lazy accessor
(`() => _x || (_x = init)`, used for both the parsed overrides and the
persistent store), the initializer runs at most once and every call
returns the identical cached value. -/
theorem lazy_init_once (init : ConfigValue) (h : truthy init = true) (n : Nat) :
    (lazyRun init n { cache := none, initCount := 0 }).2.initCount ≤ 1 ∧
    ∀ v ∈ (lazyRun init n { cache := none, initCount := 0 }).1, v = init := by
  cases n with
  | zero => exact ⟨by simp [lazyRun], by simp [lazyRun]⟩
  | succ n =>
      simp only [lazyRun, lazyAccess, lazyRun_cached init h n 1]
      refine ⟨by simp, ?_⟩
      intro v hv
      simp only [List.mem_cons] at hv
      rcases hv with rfl | hv
      · rfl
      · exact List.eq_of_mem_replicate hv

/-- Witness for C7: three calls on the overrides accessor (the parser
yields an object, hence a truthy value) parse once and agree. -/
theorem lazy_init_once_witness :
    truthy (ConfigValue.obj (Fields.cons "devtools" (ConfigValue.bool true) Fields.nil)) =
      true ∧
    ((lazyRun (ConfigValue.obj (Fields.cons "devtools" (ConfigValue.bool true) Fields.nil)) 3
        { cache := none, initCount := 0 }).2.initCount ≤ 1 ∧
      ∀ v ∈ (lazyRun
          (ConfigValue.obj (Fields.cons "devtools" (ConfigValue.bool true) Fields.nil)) 3
          { cache := none, initCount := 0 }).1,
        v = ConfigValue.obj (Fields.cons "devtools" (ConfigValue.bool true) Fields.nil)) :=
  ⟨by decide,
    lazy_init_once (ConfigValue.obj (Fields.cons "devtools" (ConfigValue.bool true)
      Fields.nil)) (by decide) 3⟩

/-- Counterexample to C8 as stated: a subscription on `"a"` registered via
`handleConfigChange`, then two identical `set("a", 2)` calls: the callback
fires on the first call only — `conf`'s `onDidChange` compares the new
value against the last observed one, so the second identical write is
deduplicated and produces no notification. -/
theorem double_set_single_notification_counterexample :
    (confSet
        (confSet
          (handleConfigChange
            { doc := ConfigValue.obj (Fields.cons "a" (ConfigValue.num 1) Fields.nil)
              subs := [] } ["a"])
          ["a"] (ConfigValue.num 2))
        ["a"] (ConfigValue.num 2)).subs =
      [{ path := ["a"], current := some (ConfigValue.num 2),
         fired := [(some (ConfigValue.num 2), some (ConfigValue.num 1))] }] := by
  decide

theorem setField_idem (fs : Fields) (k : String) (v : ConfigValue) :
    setField (setField fs k v) k v = setField fs k v := by
  induction fs using Fields.induct with
  | nil => simp [setField]
  | cons k2 v2 rest ih =>
      by_cases h : k2 = k
      · simp [setField, h]
      · simp [setField, h, ih]

theorem setSegs_idem (p : ConfigPath) (fs : Fields) (v : ConfigValue) :
    setSegs (setSegs fs p v) p v = setSegs fs p v := by
  induction p generalizing fs with
  | nil => rfl
  | cons k ks ih =>
      cases ks with
      | nil => simp [setSegs, setField_idem]
      | cons k2 ks2 =>
          simp only [setSegs, lookup_setField_self]
          rw [ih, setField_idem]

theorem storeSet_idem (doc : ConfigValue) (p : ConfigPath) (v : ConfigValue) :
    storeSet (storeSet doc p v) p v = storeSet doc p v := by
  cases doc with
  | obj fs =>
      cases p with
      | nil => rfl
      | cons k ks => simp [storeSet, setSegs_idem]
  | null => rfl
  | bool b => rfl
  | num n => rfl
  | str s => rfl

theorem subNotify_idem (doc : ConfigValue) (s : Subscription) :
    subNotify doc (subNotify doc s) = subNotify doc s := by
  simp only [subNotify]
  by_cases h : getIn doc s.path = s.current
  · simp [h]
  · simp [h]

/-- Claim C8 (amended): writing the same value twice at the same path is
fully idempotent — the second call yields the same persisted state and,
because `conf`'s `onDidChange` deduplicates by value comparison, fires no
change subscription at all (the first call alone may fire one, when the
value actually changed). -/
theorem confSet_idempotent (st : StoreState) (p : ConfigPath) (v : ConfigValue) :
    confSet (confSet st p v) p v = confSet st p v := by
  simp only [confSet, storeSet_idem, List.map_map]
  congr 1
  apply List.map_congr_left
  intro s _
  exact subNotify_idem _ s

/-- Keys of a field list, in order. -/
def fieldKeys : Fields → List String
  | Fields.nil => []
  | Fields.cons k _ rest => k :: fieldKeys rest

/-- Following the spec's words for the full-document property: resolve
every top-level key of the stored (default-seeded) document independently
through `getConfig` and keep the per-key results. -/
def recombineFields (stored overrides : ConfigValue) : Fields → Except String Fields
  | Fields.nil => Except.ok Fields.nil
  | Fields.cons k _ rest =>
      match getConfig stored overrides [k] with
      | Except.error e => Except.error e
      | Except.ok none => recombineFields stored overrides rest
      | Except.ok (some v) =>
          match recombineFields stored overrides rest with
          | Except.error e => Except.error e
          | Except.ok rs => Except.ok (Fields.cons k v rs)

/-- Following the spec's words: the per-key results of
`recombineFields` recombined into one document. -/
def recombineTop (stored overrides : ConfigValue) : Except String ConfigValue :=
  match stored with
  | ConfigValue.obj sf =>
      match recombineFields stored overrides sf with
      | Except.ok fs => Except.ok (ConfigValue.obj fs)
      | Except.error e => Except.error e
  | _ => Except.error "TypeError"

/-- Counterexample to C9 as stated: the override tree always carries keys
outside the stored document's top-level keys (`yargs-parser` puts the
positional-argument key `"_"` in every parse result).  With stored
`{devtools: false}` and overrides `{_: {}}`, the full read keeps `"_"`
while the per-key recombination over the stored top-level keys drops it. -/
theorem full_config_recombination_counterexample :
    getFullConfig (ConfigValue.obj (Fields.cons "devtools" (ConfigValue.bool false) Fields.nil))
        (ConfigValue.obj (Fields.cons "_" (ConfigValue.obj Fields.nil) Fields.nil)) =
      Except.ok (some (ConfigValue.obj (Fields.cons "devtools" (ConfigValue.bool false)
        (Fields.cons "_" (ConfigValue.obj Fields.nil) Fields.nil)))) ∧
    recombineTop (ConfigValue.obj (Fields.cons "devtools" (ConfigValue.bool false) Fields.nil))
        (ConfigValue.obj (Fields.cons "_" (ConfigValue.obj Fields.nil) Fields.nil)) =
      Except.ok (ConfigValue.obj (Fields.cons "devtools" (ConfigValue.bool false) Fields.nil)) ∧
    (recombineTop (ConfigValue.obj (Fields.cons "devtools" (ConfigValue.bool false) Fields.nil))
        (ConfigValue.obj (Fields.cons "_" (ConfigValue.obj Fields.nil) Fields.nil))).map some ≠
      getFullConfig (ConfigValue.obj (Fields.cons "devtools" (ConfigValue.bool false) Fields.nil))
        (ConfigValue.obj (Fields.cons "_" (ConfigValue.obj Fields.nil) Fields.nil)) := by
  decide

theorem getIn_single (fs : Fields) (k : String) :
    getIn (ConfigValue.obj fs) [k] = lookupField fs k := by
  simp only [getIn]
  cases lookupField fs k with
  | none => rfl
  | some v => rfl

theorem hasKey_iff_mem (fs : Fields) (k : String) :
    hasKey fs k = true ↔ k ∈ fieldKeys fs := by
  induction fs using Fields.induct with
  | nil => simp [hasKey, lookupField, fieldKeys]
  | cons k2 v2 rest ih =>
      by_cases h : k2 = k
      · simp [hasKey, lookupField, fieldKeys, h]
      · simpa [hasKey, lookupField, fieldKeys, h, Ne.symm h] using ih

theorem fieldKeys_setField (fs : Fields) (k : String) (v : ConfigValue)
    (h : hasKey fs k = true) : fieldKeys (setField fs k v) = fieldKeys fs := by
  induction fs using Fields.induct with
  | nil => simp [hasKey, lookupField] at h
  | cons k2 v2 rest ih =>
      by_cases h2 : k2 = k
      · simp [setField, h2, fieldKeys]
      · have hrest : hasKey rest k = true := by
          simpa [hasKey, lookupField, h2] using h
        simp [setField, h2, fieldKeys, ih hrest]

theorem hasKey_setField_of (fs : Fields) (k k2 : String) (v : ConfigValue)
    (h : hasKey fs k2 = true) : hasKey (setField fs k v) k2 = true := by
  by_cases hk : k = k2
  · subst hk
    simp [hasKey, lookup_setField_self]
  · rwa [hasKey, lookup_setField_ne fs k k2 v hk]

theorem fieldKeys_mergeInto_subset (of' : Fields) : ∀ sf : Fields,
    (∀ k, hasKey of' k = true → hasKey sf k = true) →
    fieldKeys (mergeInto sf of') = fieldKeys sf := by
  induction of' using Fields.induct with
  | nil => intro sf _; simp [mergeInto]
  | cons k v rest ih =>
      intro sf hsub
      have hk : hasKey sf k = true := hsub k (by simp [hasKey, lookupField])
      obtain ⟨mv, hmv⟩ : ∃ mv, lookupField sf k = some mv := by
        cases hl : lookupField sf k with
        | none => rw [hasKey, hl] at hk; simp at hk
        | some mv => exact ⟨mv, rfl⟩
      simp only [mergeInto, hmv]
      rw [ih (setField sf k (mergeVal mv v)) ?_]
      · exact fieldKeys_setField sf k _ hk
      · intro k2 hk2
        refine hasKey_setField_of sf k k2 _ (hsub k2 ?_)
        by_cases hkk : k = k2
        · subst hkk; simp [hasKey, lookupField]
        · simpa [hasKey, lookupField, hkk] using hk2

/-- Following the spec's words: the per-key resolved value at each stored
top-level binding (override absent keeps the stored value, override
present wins per the merge rule). -/
def resolveFields (of' : Fields) : Fields → Fields
  | Fields.nil => Fields.nil
  | Fields.cons k v rest =>
      Fields.cons k
        (match lookupField of' k with
         | some ov => mergeVal v ov
         | none => v)
        (resolveFields of' rest)

theorem lookup_resolveFields (of' fs : Fields) (k : String) :
    lookupField (resolveFields of' fs) k =
      Option.map
        (fun v => match lookupField of' k with
                  | some ov => mergeVal v ov
                  | none => v)
        (lookupField fs k) := by
  induction fs using Fields.induct with
  | nil => simp [resolveFields, lookupField]
  | cons k2 v2 rest ih =>
      by_cases h : k2 = k
      · subst h
        simp [resolveFields, lookupField]
      · simp [resolveFields, lookupField, h, ih]

theorem fieldKeys_resolveFields (of' fs : Fields) :
    fieldKeys (resolveFields of' fs) = fieldKeys fs := by
  induction fs using Fields.induct with
  | nil => rfl
  | cons k v rest ih => simp [resolveFields, fieldKeys, ih]

theorem fields_ext (fs1 : Fields) : ∀ fs2 : Fields,
    fieldKeys fs1 = fieldKeys fs2 → distinctKeys fs1 = true →
    (∀ k, lookupField fs1 k = lookupField fs2 k) → fs1 = fs2 := by
  induction fs1 using Fields.induct with
  | nil =>
      intro fs2 hk _ _
      cases fs2 with
      | nil => rfl
      | cons k v rest => simp [fieldKeys] at hk
  | cons k v rest ih =>
      intro fs2 hk hd hl
      cases fs2 with
      | nil => simp [fieldKeys] at hk
      | cons k2 v2 rest2 =>
          simp only [fieldKeys, List.cons.injEq] at hk
          obtain ⟨rfl, hkeys⟩ := hk
          simp only [distinctKeys, Bool.and_eq_true, Bool.not_eq_true'] at hd
          have hv : v = v2 := by
            have := hl k
            simpa [lookupField] using this
          subst hv
          have hrest : rest = rest2 := by
            refine ih rest2 hkeys hd.2 ?_
            intro k2
            by_cases h2 : k2 = k
            · subst h2
              have h1 : lookupField rest k2 = none :=
                hasKey_false_lookup rest k2 hd.1
              have h2m : k2 ∉ fieldKeys rest2 := by
                rw [← hkeys]
                intro hmem
                have hcontra := (hasKey_iff_mem rest k2).mpr hmem
                rw [hd.1] at hcontra
                exact Bool.false_ne_true hcontra
              have h2f : hasKey rest2 k2 = false := by
                cases hh : hasKey rest2 k2 with
                | false => rfl
                | true => exact absurd ((hasKey_iff_mem rest2 k2).mp hh) h2m
              rw [h1, hasKey_false_lookup rest2 k2 h2f]
            · have hx := hl k2
              simp only [lookupField, if_neg (Ne.symm h2)] at hx
              exact hx
          rw [hrest]

/-- Per-key condition under which root-level merging and per-key
resolution agree: the override value is not `null` and a non-object
override is not paired with an object stored value. -/
def keyCompatible : Option ConfigValue → ConfigValue → Bool
  | _, ConfigValue.null => false
  | _, ConfigValue.obj _ => true
  | some (ConfigValue.obj _), _ => false
  | _, _ => true

/-- Every top-level override key occurs among the stored top-level keys and
is per-key compatible with the stored value there. -/
def topCompatible (sf : Fields) : Fields → Bool
  | Fields.nil => true
  | Fields.cons k ov rest =>
      hasKey sf k && keyCompatible (lookupField sf k) ov && topCompatible sf rest

theorem topCompatible_lookup (sf : Fields) : ∀ of' : Fields,
    topCompatible sf of' = true → ∀ k ov, lookupField of' k = some ov →
    hasKey sf k = true ∧ keyCompatible (lookupField sf k) ov = true := by
  intro of'
  induction of' using Fields.induct with
  | nil => intro _ k ov h; simp [lookupField] at h
  | cons k2 ov2 rest ih =>
      intro hc k ov h
      simp only [topCompatible, Bool.and_eq_true] at hc
      simp only [lookupField] at h
      by_cases h2 : k2 = k
      · subst h2
        rw [if_pos rfl] at h
        obtain rfl : ov2 = ov := by injection h
        exact ⟨hc.1.1, hc.1.2⟩
      · rw [if_neg h2] at h
        exact ih hc.2 k ov h

theorem getConfig_topkey (sf of' : Fields) (k : String) (v : ConfigValue)
    (hv : lookupField sf k = some v) (hwv : wfTree v = true)
    (hcompat : ∀ ov, lookupField of' k = some ov → keyCompatible (some v) ov = true) :
    getConfig (ConfigValue.obj sf) (ConfigValue.obj of') [k] =
      Except.ok (some (match lookupField of' k with
                       | some ov => mergeVal v ov
                       | none => v)) := by
  simp only [getConfig, getIn_single, hv]
  cases hov : lookupField of' k with
  | none => rfl
  | some ov =>
      have hc := hcompat ov hov
      cases ov with
      | null => simp [keyCompatible] at hc
      | obj ovf =>
          cases v with
          | obj vf =>
              have hd : distinctKeys vf = true :=
                wfFields_distinctKeys vf (by simpa [wfTree] using hwv)
              have hme : mergeOptions2 (ConfigValue.obj vf) (ConfigValue.obj ovf) =
                  Except.ok (ConfigValue.obj (mergeInto vf ovf)) := by
                simp [mergeOptions2, mergeArg, mergeVal, mergeInto_nil vf hd]
              simp [hme, mergeVal, Except.map]
          | null => simp [mergeVal]
          | bool b => simp [mergeVal]
          | num n => simp [mergeVal]
          | str s => simp [mergeVal]
      | bool b =>
          cases v with
          | obj vf => simp [keyCompatible] at hc
          | null => simp [mergeVal]
          | bool b2 => simp [mergeVal]
          | num n => simp [mergeVal]
          | str s => simp [mergeVal]
      | num n =>
          cases v with
          | obj vf => simp [keyCompatible] at hc
          | null => simp [mergeVal]
          | bool b2 => simp [mergeVal]
          | num n2 => simp [mergeVal]
          | str s => simp [mergeVal]
      | str s =>
          cases v with
          | obj vf => simp [keyCompatible] at hc
          | null => simp [mergeVal]
          | bool b2 => simp [mergeVal]
          | num n2 => simp [mergeVal]
          | str s2 => simp [mergeVal]

/-- Per-cell facts needed to evaluate `recombineFields` over a field list:
each binding is the (well-formed) first binding of its key in the stored
top level and is compatible with any override at that key. -/
def cellsOk (sf of' : Fields) : Fields → Prop
  | Fields.nil => True
  | Fields.cons k v rest =>
      (lookupField sf k = some v ∧ wfTree v = true ∧
        ∀ ov, lookupField of' k = some ov → keyCompatible (some v) ov = true) ∧
      cellsOk sf of' rest

theorem recombineFields_eval (sf of' : Fields) : ∀ fs : Fields, cellsOk sf of' fs →
    recombineFields (ConfigValue.obj sf) (ConfigValue.obj of') fs =
      Except.ok (resolveFields of' fs) := by
  intro fs
  induction fs using Fields.induct with
  | nil => intro _; rfl
  | cons k v rest ih =>
      intro hcells
      obtain ⟨⟨hv, hwv, hcompat⟩, hrest⟩ := hcells
      simp only [recombineFields, getConfig_topkey sf of' k v hv hwv hcompat,
        ih hrest, resolveFields]

theorem cellsOk_of_wf (sf of' : Fields) (hws : wfFields sf = true)
    (hc : topCompatible sf of' = true) : cellsOk sf of' sf := by
  suffices h : ∀ fs : Fields, wfFields fs = true →
      (∀ k v, lookupField fs k = some v → lookupField sf k = some v) →
      cellsOk sf of' fs from h sf hws (fun _ _ hx => hx)
  intro fs
  induction fs using Fields.induct with
  | nil => intro _ _; exact trivial
  | cons k v rest ih =>
      intro hwf hsub
      simp only [wfFields, Bool.and_eq_true, Bool.not_eq_true'] at hwf
      have hk : lookupField sf k = some v := hsub k v (by simp [lookupField])
      refine ⟨⟨hk, hwf.1.2, ?_⟩, ?_⟩
      · intro ov hov
        have hres := topCompatible_lookup sf of' hc k ov hov
        rw [hk] at hres
        exact hres.2
      · refine ih hwf.2 ?_
        intro k2 v2 h2
        have hne : k ≠ k2 := by
          intro hcontra
          subst hcontra
          have hhk : hasKey rest k = true := by simp [hasKey, h2]
          rw [hwf.1.1] at hhk
          exact Bool.false_ne_true hhk
        refine hsub k2 v2 ?_
        simp [lookupField, hne, h2]

theorem distinctKeys_iff_nodup (fs : Fields) :
    distinctKeys fs = true ↔ (fieldKeys fs).Nodup := by
  induction fs using Fields.induct with
  | nil => simp [distinctKeys, fieldKeys]
  | cons k v rest ih =>
      simp only [distinctKeys, fieldKeys, Bool.and_eq_true, Bool.not_eq_true',
        List.nodup_cons]
      constructor
      · rintro ⟨h1, h2⟩
        refine ⟨fun hmem => ?_, ih.mp h2⟩
        have hcontra := (hasKey_iff_mem rest k).mpr hmem
        rw [h1] at hcontra
        exact Bool.false_ne_true hcontra
      · rintro ⟨h1, h2⟩
        refine ⟨?_, ih.mpr h2⟩
        cases hh : hasKey rest k with
        | false => rfl
        | true => exact absurd ((hasKey_iff_mem rest k).mp hh) h1

theorem resolveFields_eq_mergeInto (sf of' : Fields)
    (hds : distinctKeys sf = true) (hdo : distinctKeys of' = true)
    (hsub : ∀ k, hasKey of' k = true → hasKey sf k = true) :
    resolveFields of' sf = mergeInto sf of' := by
  refine fields_ext (resolveFields of' sf) (mergeInto sf of') ?_ ?_ ?_
  · rw [fieldKeys_resolveFields, fieldKeys_mergeInto_subset of' sf hsub]
  · rw [distinctKeys_iff_nodup, fieldKeys_resolveFields,
      ← distinctKeys_iff_nodup]
    exact hds
  · intro k
    rw [lookup_resolveFields]
    cases hov : lookupField of' k with
    | none =>
        have hno : hasKey of' k = false := by simp [hasKey, hov]
        rw [lookup_mergeInto_notin of' sf k hno]
        cases lookupField sf k with
        | none => rfl
        | some mv => rfl
    | some ov =>
        rw [lookup_mergeInto_in of' sf k ov hdo hov]
        have hk : hasKey sf k = true := hsub k (by simp [hasKey, hov])
        obtain ⟨mv, hmv⟩ : ∃ mv, lookupField sf k = some mv := by
          cases hl : lookupField sf k with
          | none => simp [hasKey, hl] at hk
          | some mv => exact ⟨mv, rfl⟩
        rw [hmv]
        rfl

/-- Claim C9 (amended): `getFullConfig()` is `getConfig` at the root path;
and whenever every top-level override key occurs among the stored top-level
keys with a compatible value (no `null` override, no scalar override over
an object stored value), the full read equals resolving each stored
top-level key independently and recombining the per-key results. -/
theorem full_config_root_and_recombination (sf of' : Fields)
    (hws : wfFields sf = true) (hwo : wfFields of' = true)
    (hc : topCompatible sf of' = true) :
    getFullConfig (ConfigValue.obj sf) (ConfigValue.obj of') =
      getConfig (ConfigValue.obj sf) (ConfigValue.obj of') [] ∧
    (recombineTop (ConfigValue.obj sf) (ConfigValue.obj of')).map some =
      getFullConfig (ConfigValue.obj sf) (ConfigValue.obj of') := by
  refine ⟨rfl, ?_⟩
  have hds := wfFields_distinctKeys sf hws
  have hdo := wfFields_distinctKeys of' hwo
  have hsub : ∀ k, hasKey of' k = true → hasKey sf k = true := by
    intro k hk
    obtain ⟨ov, hov⟩ : ∃ ov, lookupField of' k = some ov := by
      cases hl : lookupField of' k with
      | none => simp [hasKey, hl] at hk
      | some ov => exact ⟨ov, rfl⟩
    exact (topCompatible_lookup sf of' hc k ov hov).1
  have heval := recombineFields_eval sf of' sf (cellsOk_of_wf sf of' hws hc)
  simp only [recombineTop, heval]
  rw [resolveFields_eq_mergeInto sf of' hds hdo hsub]
  simp [getFullConfig, getConfig, getIn, mergeOptions2, mergeArg, mergeVal,
    mergeInto_nil sf hds, Except.map]

/-- Witness for the amended C9: stored
`{devtools: false, log: {level: "info"}}` with overrides
`{log: {level: "debug"}}`. -/
theorem full_config_root_and_recombination_witness :
    wfFields (Fields.cons "devtools" (ConfigValue.bool false)
      (Fields.cons "log" (ConfigValue.obj (Fields.cons "level" (ConfigValue.str "info")
        Fields.nil)) Fields.nil)) = true ∧
    wfFields (Fields.cons "log" (ConfigValue.obj (Fields.cons "level"
      (ConfigValue.str "debug") Fields.nil)) Fields.nil) = true ∧
    topCompatible
      (Fields.cons "devtools" (ConfigValue.bool false)
        (Fields.cons "log" (ConfigValue.obj (Fields.cons "level" (ConfigValue.str "info")
          Fields.nil)) Fields.nil))
      (Fields.cons "log" (ConfigValue.obj (Fields.cons "level" (ConfigValue.str "debug")
        Fields.nil)) Fields.nil) = true ∧
    (getFullConfig
        (ConfigValue.obj (Fields.cons "devtools" (ConfigValue.bool false)
          (Fields.cons "log" (ConfigValue.obj (Fields.cons "level" (ConfigValue.str "info")
            Fields.nil)) Fields.nil)))
        (ConfigValue.obj (Fields.cons "log" (ConfigValue.obj (Fields.cons "level"
          (ConfigValue.str "debug") Fields.nil)) Fields.nil)) =
      getConfig
        (ConfigValue.obj (Fields.cons "devtools" (ConfigValue.bool false)
          (Fields.cons "log" (ConfigValue.obj (Fields.cons "level" (ConfigValue.str "info")
            Fields.nil)) Fields.nil)))
        (ConfigValue.obj (Fields.cons "log" (ConfigValue.obj (Fields.cons "level"
          (ConfigValue.str "debug") Fields.nil)) Fields.nil)) [] ∧
      (recombineTop
          (ConfigValue.obj (Fields.cons "devtools" (ConfigValue.bool false)
            (Fields.cons "log" (ConfigValue.obj (Fields.cons "level" (ConfigValue.str "info")
              Fields.nil)) Fields.nil)))
          (ConfigValue.obj (Fields.cons "log" (ConfigValue.obj (Fields.cons "level"
            (ConfigValue.str "debug") Fields.nil)) Fields.nil))).map some =
        getFullConfig
          (ConfigValue.obj (Fields.cons "devtools" (ConfigValue.bool false)
            (Fields.cons "log" (ConfigValue.obj (Fields.cons "level" (ConfigValue.str "info")
              Fields.nil)) Fields.nil)))
          (ConfigValue.obj (Fields.cons "log" (ConfigValue.obj (Fields.cons "level"
            (ConfigValue.str "debug") Fields.nil)) Fields.nil))) :=
  ⟨by decide, by decide, by decide,
    full_config_root_and_recombination
      (Fields.cons "devtools" (ConfigValue.bool false)
        (Fields.cons "log" (ConfigValue.obj (Fields.cons "level" (ConfigValue.str "info")
          Fields.nil)) Fields.nil))
      (Fields.cons "log" (ConfigValue.obj (Fields.cons "level" (ConfigValue.str "debug")
        Fields.nil)) Fields.nil)
      (by decide) (by decide) (by decide)⟩

end OTConfig
